import Mathlib

/-!
Shallow embedding of the `range-time` crate (src/src/lib.rs).

Timestamps (`chrono::DateTime<Utc>`) are modelled as `Int` — seconds since
the Unix epoch.  `chrono::Duration` values produced by `From<TimeStep>` are
whole numbers of seconds, so a duration is likewise an `Int` (its
`num_seconds`).  `weekday().number_from_monday()` is the Monday-first
weekday number of the UTC day containing the timestamp; the epoch day
1970-01-01 was a Thursday (= 4), and Lean's `Int` `/` and `%` are Euclidean
(floor division for the positive divisors used here), matching calendar
day arithmetic for negative timestamps as well.

The iterator's `next` and the counter's `total_steps` are loops whose
termination needs a strictly positive step duration (the crate loops
forever otherwise, a documented limitation), so the loop embeddings carry
the hypothesis `0 < step` and are defined by well-founded recursion on the
distance to `end`.  A fuel-indexed variant of the counter loop is given as
well, to state termination (claim C6) as a theorem rather than by
construction.
-/

/-- `weekday().number_from_monday()` of the UTC day containing timestamp `t`
(seconds since epoch): Monday = 1 … Sunday = 7.  Day 0 (1970-01-01) was a
Thursday. -/
def weekdayNumberFromMonday (t : Int) : Int :=
  (t / 86400 + 3) % 7 + 1

/-- The weekend test the iterator and counter both perform:
`number_from_monday == 6 || number_from_monday == 7`. -/
def isWeekend (t : Int) : Bool :=
  weekdayNumberFromMonday t == 6 || weekdayNumberFromMonday t == 7

/-- `TimeStep` — the step enum of the crate, carrying an `i64` count. -/
inductive TimeStep : Type
  | Second (n : Int)
  | Minute (n : Int)
  | Hour (n : Int)
  | Day (n : Int)
  deriving Repr, DecidableEq

/-- `From<TimeStep> for Duration`: the resulting duration, in seconds
(`Duration::seconds(s)`, `Duration::minutes(m)`, `Duration::hours(h)`,
`Duration::days(d)`). -/
def TimeStep.toDuration : TimeStep → Int
  | .Second s => s
  | .Minute m => m * 60
  | .Hour h => h * 3600
  | .Day d => d * 86400

/-- `TimeStep::as_total_seconds`: `Duration::from(self).num_seconds()`;
the durations above are whole seconds, so this is `toDuration`. -/
def TimeStep.as_total_seconds (s : TimeStep) : Int :=
  s.toDuration

/-- The weekend-skip walk both loops perform:
`while (day_candidate is weekend) && day_candidate < end { day_candidate += step }`. -/
def skipWeekendWalk (step end_ : Int) (hstep : 0 < step) (c : Int) : Int :=
  if isWeekend c = true ∧ c < end_ then
    skipWeekendWalk step end_ hstep (c + step)
  else
    c
termination_by (end_ - c).toNat
decreasing_by
  rename_i h
  omega

theorem skipWeekendWalk_eq_self (step end_ : Int) (hstep : 0 < step) (c : Int)
    (h : ¬(isWeekend c = true ∧ c < end_)) :
    skipWeekendWalk step end_ hstep c = c := by
  rw [skipWeekendWalk]
  simp only [if_neg h]

theorem skipWeekendWalk_le (step end_ : Int) (hstep : 0 < step) (c : Int) :
    c ≤ skipWeekendWalk step end_ hstep c := by
  by_cases h : isWeekend c = true ∧ c < end_
  · have ih := skipWeekendWalk_le step end_ hstep (c + step)
    rw [skipWeekendWalk, if_pos h]
    omega
  · rw [skipWeekendWalk_eq_self step end_ hstep c h]
termination_by (end_ - c).toNat
decreasing_by
  omega

theorem skipWeekendWalk_exit (step end_ : Int) (hstep : 0 < step) (c : Int) :
    ¬(isWeekend (skipWeekendWalk step end_ hstep c) = true ∧
      skipWeekendWalk step end_ hstep c < end_) := by
  by_cases h : isWeekend c = true ∧ c < end_
  · rw [skipWeekendWalk, if_pos h]
    exact skipWeekendWalk_exit step end_ hstep (c + step)
  · rw [skipWeekendWalk_eq_self step end_ hstep c h]
    exact h
termination_by (end_ - c).toNat
decreasing_by
  omega

/-- Outcome of one entry of the iterator's `loop` body: yield a value,
terminate, or `continue` (filter rejected).  Each outcome records the value
of `self.current` when the body finishes. -/
inductive LoopStep : Type
  | yield (v : Int) (cur : Int)
  | halt (cur : Int)
  | retry (cur : Int)
  deriving Repr, DecidableEq

/-- The cursor (`self.current`) after the loop body. -/
def LoopStep.cur : LoopStep → Int
  | .yield _ c => c
  | .halt c => c
  | .retry c => c

/-- The `if let Some(ref f) = self.filter` test both loops perform:
`f(t)` when a filter is present, vacuously true otherwise. -/
def passesFilter (f? : Option (Int → Bool)) (t : Int) : Bool :=
  match f? with
  | some f => f t
  | none => true

/-- The filter check the iterator performs on an emit-candidate `v` (the
cursor having already been set to `cur`): `return Some(v)` on acceptance,
`continue` on rejection, `return Some(v)` when no filter is present. -/
def applyFilter (f? : Option (Int → Bool)) (v cur : Int) : LoopStep :=
  if passesFilter f? v then .yield v cur else .retry cur

/-- One entry of the `loop` in `TimeRangeIter::next`.  `current` is
`self.current` at entry; the result records the outcome and the final
`self.current`.  The unconditional `self.current = self.current + self.step`
appears as the `candidate + step` cursor of the non-skip outcomes; the
re-synchronization `self.current = day_candidate + self.step` as the
`day_candidate + step` cursor of the skip outcomes. -/
def iterBody (step end_ : Int) (skip : Bool) (f? : Option (Int → Bool))
    (hstep : 0 < step) (current : Int) : LoopStep :=
  if end_ ≤ current then .halt current
  else
    let candidate := current
    if skip then
      let day_candidate := skipWeekendWalk step end_ hstep candidate
      if day_candidate ≠ candidate then
        if day_candidate < end_ then
          applyFilter f? day_candidate (day_candidate + step)
        else
          .halt (day_candidate + step)
      else
        applyFilter f? candidate (candidate + step)
    else
      applyFilter f? candidate (candidate + step)

/-- On entry with `current < end`, the loop body reduces to: take the
weekend-adjusted candidate, halt past `end`, otherwise run the filter, the
cursor always ending at candidate + step. -/
theorem iterBody_of_lt (step end_ : Int) (skip : Bool) (f? : Option (Int → Bool))
    (hstep : 0 < step) (current : Int) (hcur : current < end_) :
    iterBody step end_ skip f? hstep current =
      if end_ ≤ (if skip then skipWeekendWalk step end_ hstep current else current) then
        LoopStep.halt ((if skip then skipWeekendWalk step end_ hstep current else current) + step)
      else
        applyFilter f? (if skip then skipWeekendWalk step end_ hstep current else current)
          ((if skip then skipWeekendWalk step end_ hstep current else current) + step) := by
  unfold iterBody
  simp only [if_neg (not_le.mpr hcur)]
  cases skip with
  | false =>
    simp only [if_neg (not_le.mpr hcur), Bool.false_eq_true, if_false]
  | true =>
    simp only [if_true]
    by_cases hdc : skipWeekendWalk step end_ hstep current = current
    · simp only [hdc, ne_eq, not_true_eq_false, if_false, if_neg (not_le.mpr hcur)]
    · simp only [ne_eq, hdc, not_false_eq_true, if_true]
      by_cases hlt : skipWeekendWalk step end_ hstep current < end_
      · simp only [if_pos hlt, if_neg (not_le.mpr hlt)]
      · simp only [if_neg hlt, if_pos (not_lt.mp hlt)]

theorem iterBody_of_ge (step end_ : Int) (skip : Bool) (f? : Option (Int → Bool))
    (hstep : 0 < step) (current : Int) (hge : end_ ≤ current) :
    iterBody step end_ skip f? hstep current = .halt current := by
  unfold iterBody
  simp only [if_pos hge]

/-- The `candidate` after the weekend-skip block: walked when
`skip_weekends` is set, unchanged otherwise. -/
def afterSkip (step end_ : Int) (skip : Bool) (hstep : 0 < step) (current : Int) : Int :=
  if skip then skipWeekendWalk step end_ hstep current else current

theorem afterSkip_le (step end_ : Int) (skip : Bool) (hstep : 0 < step) (current : Int) :
    current ≤ afterSkip step end_ skip hstep current := by
  unfold afterSkip
  split
  · exact skipWeekendWalk_le step end_ hstep current
  · exact le_rfl

theorem candidate_le (step end_ : Int) (skip : Bool) (hstep : 0 < step) (current : Int) :
    current ≤ (if skip then skipWeekendWalk step end_ hstep current else current) := by
  split
  · exact skipWeekendWalk_le step end_ hstep current
  · exact le_rfl

theorem applyFilter_eq_yield {f? : Option (Int → Bool)} {v cur w c : Int}
    (h : applyFilter f? v cur = .yield w c) : w = v ∧ c = cur := by
  unfold applyFilter at h
  split at h
  · simp only [LoopStep.yield.injEq] at h
    exact ⟨h.1.symm, h.2.symm⟩
  · simp at h

theorem applyFilter_eq_yield_passes {f? : Option (Int → Bool)} {v cur w c : Int}
    (h : applyFilter f? v cur = .yield w c) :
    w = v ∧ c = cur ∧ passesFilter f? v = true := by
  unfold applyFilter at h
  split at h
  · rename_i hpass
    simp only [LoopStep.yield.injEq] at h
    exact ⟨h.1.symm, h.2.symm, hpass⟩
  · simp at h

theorem applyFilter_eq_retry {f? : Option (Int → Bool)} {v cur c : Int}
    (h : applyFilter f? v cur = .retry c) : c = cur := by
  unfold applyFilter at h
  split at h
  · simp at h
  · simp only [LoopStep.retry.injEq] at h
    exact h.symm

theorem applyFilter_eq_retry_fails {f? : Option (Int → Bool)} {v cur c : Int}
    (h : applyFilter f? v cur = .retry c) :
    c = cur ∧ passesFilter f? v = false := by
  unfold applyFilter at h
  split at h
  · simp at h
  · rename_i hpass
    simp only [LoopStep.retry.injEq] at h
    exact ⟨h.symm, Bool.not_eq_true _ ▸ hpass⟩

theorem applyFilter_ne_halt {f? : Option (Int → Bool)} {v cur c : Int}
    (h : applyFilter f? v cur = .halt c) : False := by
  unfold applyFilter at h
  split at h
  · simp at h
  · simp at h

theorem iterBody_retry_bound {step end_ : Int} {skip : Bool} {f? : Option (Int → Bool)}
    {hstep : 0 < step} {current c : Int}
    (h : iterBody step end_ skip f? hstep current = .retry c) :
    current < end_ ∧ current + step ≤ c := by
  by_cases hcur : current < end_
  · rw [iterBody_of_lt step end_ skip f? hstep current hcur] at h
    have hle := candidate_le step end_ skip hstep current
    by_cases hc : end_ ≤ (if skip then skipWeekendWalk step end_ hstep current else current)
    · rw [if_pos hc] at h
      simp at h
    · rw [if_neg hc] at h
      have := applyFilter_eq_retry h
      omega
  · rw [iterBody_of_ge step end_ skip f? hstep current (not_lt.mp hcur)] at h
    simp at h

theorem iterBody_yield_spec {step end_ : Int} {skip : Bool} {f? : Option (Int → Bool)}
    {hstep : 0 < step} {current v c : Int}
    (h : iterBody step end_ skip f? hstep current = .yield v c) :
    current < end_ ∧ current ≤ v ∧ v < end_ ∧ c = v + step := by
  by_cases hcur : current < end_
  · rw [iterBody_of_lt step end_ skip f? hstep current hcur] at h
    have hle := candidate_le step end_ skip hstep current
    by_cases hc : end_ ≤ (if skip then skipWeekendWalk step end_ hstep current else current)
    · rw [if_pos hc] at h
      simp at h
    · rw [if_neg hc] at h
      have := applyFilter_eq_yield h
      omega
  · rw [iterBody_of_ge step end_ skip f? hstep current (not_lt.mp hcur)] at h
    simp at h

theorem iterBody_halt_spec {step end_ : Int} {skip : Bool} {f? : Option (Int → Bool)}
    {hstep : 0 < step} {current c : Int}
    (h : iterBody step end_ skip f? hstep current = .halt c) :
    end_ ≤ c := by
  by_cases hcur : current < end_
  · rw [iterBody_of_lt step end_ skip f? hstep current hcur] at h
    by_cases hc : end_ ≤ (if skip then skipWeekendWalk step end_ hstep current else current)
    · rw [if_pos hc] at h
      simp only [LoopStep.halt.injEq] at h
      omega
    · rw [if_neg hc] at h
      exact absurd h applyFilter_ne_halt
  · rw [iterBody_of_ge step end_ skip f? hstep current (not_lt.mp hcur)] at h
    simp only [LoopStep.halt.injEq] at h
    omega

/-- When `skip_weekends` is set, a yielded value is never a weekend. -/
theorem iterBody_yield_not_weekend {step end_ : Int} {f? : Option (Int → Bool)}
    {hstep : 0 < step} {current v c : Int}
    (h : iterBody step end_ true f? hstep current = .yield v c) :
    isWeekend v = false := by
  by_cases hcur : current < end_
  · rw [iterBody_of_lt step end_ true f? hstep current hcur] at h
    simp only [if_true] at h
    by_cases hc : end_ ≤ skipWeekendWalk step end_ hstep current
    · rw [if_pos hc] at h
      simp at h
    · rw [if_neg hc] at h
      have hv := (applyFilter_eq_yield h).1
      have hexit := skipWeekendWalk_exit step end_ hstep current
      rw [← hv] at hexit
      push_neg at hexit
      by_cases hw : isWeekend v = true
      · exact absurd (hexit hw) (hv ▸ hc)
      · simp only [Bool.not_eq_true] at hw
        exact hw
  · rw [iterBody_of_ge step end_ true f? hstep current (not_lt.mp hcur)] at h
    simp at h

/-- `TimeRangeIter::next` (src/src/lib.rs:69-125), acting on an explicit
cursor: the returned pair is (the produced item, the final `self.current`).
The `loop` re-enters on a `continue` (filter rejection). -/
def nextFrom (step end_ : Int) (skip : Bool) (f? : Option (Int → Bool))
    (hstep : 0 < step) (current : Int) : Option Int × Int :=
  match h : iterBody step end_ skip f? hstep current with
  | .yield v c => (some v, c)
  | .halt c => (none, c)
  | .retry c => nextFrom step end_ skip f? hstep c
termination_by (end_ - current).toNat
decreasing_by
  have := iterBody_retry_bound h
  omega

theorem nextFrom_of_ge (step end_ : Int) (skip : Bool) (f? : Option (Int → Bool))
    (hstep : 0 < step) (current : Int) (hge : end_ ≤ current) :
    nextFrom step end_ skip f? hstep current = (none, current) := by
  rw [nextFrom, iterBody_of_ge step end_ skip f? hstep current hge]

theorem nextFrom_some {step end_ : Int} {skip : Bool} {f? : Option (Int → Bool)}
    {hstep : 0 < step} {current v c : Int}
    (h : nextFrom step end_ skip f? hstep current = (some v, c)) :
    current < end_ ∧ current ≤ v ∧ v < end_ ∧ c = v + step := by
  rw [nextFrom] at h
  split at h
  · rename_i v' c' heq
    simp only [Prod.mk.injEq, Option.some.injEq] at h
    obtain ⟨hv, hc⟩ := h
    subst hv
    subst hc
    exact iterBody_yield_spec heq
  · simp at h
  · rename_i c' heq
    have hb := iterBody_retry_bound heq
    have ih := nextFrom_some h
    omega
termination_by (end_ - current).toNat
decreasing_by
  omega

theorem nextFrom_none {step end_ : Int} {skip : Bool} {f? : Option (Int → Bool)}
    {hstep : 0 < step} {current c : Int}
    (h : nextFrom step end_ skip f? hstep current = (none, c)) :
    end_ ≤ c := by
  rw [nextFrom] at h
  split at h
  · simp at h
  · rename_i c' heq
    simp only [Prod.mk.injEq] at h
    exact h.2 ▸ iterBody_halt_spec heq
  · rename_i c' heq
    have hb := iterBody_retry_bound heq
    exact nextFrom_none h
termination_by (end_ - current).toNat
decreasing_by
  omega

theorem nextFrom_some_not_weekend {step end_ : Int} {f? : Option (Int → Bool)}
    {hstep : 0 < step} {current v c : Int}
    (h : nextFrom step end_ true f? hstep current = (some v, c)) :
    isWeekend v = false := by
  rw [nextFrom] at h
  split at h
  · rename_i v' c' heq
    simp only [Prod.mk.injEq, Option.some.injEq] at h
    exact h.1 ▸ iterBody_yield_not_weekend heq
  · simp at h
  · rename_i c' heq
    have hb := iterBody_retry_bound heq
    exact nextFrom_some_not_weekend h
termination_by (end_ - current).toNat
decreasing_by
  omega

/-- Fully draining the iterator from cursor `current`: the list of items
produced by repeated calls to `next` until the first `None`. -/
def drainFrom (step end_ : Int) (skip : Bool) (f? : Option (Int → Bool))
    (hstep : 0 < step) (current : Int) : List Int :=
  match h : nextFrom step end_ skip f? hstep current with
  | (some v, c) => v :: drainFrom step end_ skip f? hstep c
  | (none, _) => []
termination_by (end_ - current).toNat
decreasing_by
  have := nextFrom_some h
  omega

/-- `<TimeRange as ComputeTimeRange>::total_steps` (src/src/lib.rs:226-259),
acting on an explicit cursor.  The repeated
`if skip then skipWeekendWalk … else current` term is the local `candidate`
after the weekend-skip block. -/
def totalStepsFrom (step end_ : Int) (skip : Bool) (f? : Option (Int → Bool))
    (hstep : 0 < step) (current : Int) : Nat :=
  if hcur : current < end_ then
    if end_ ≤ afterSkip step end_ skip hstep current then
      0
    else
      if passesFilter f? (afterSkip step end_ skip hstep current) then
        totalStepsFrom step end_ skip f? hstep (afterSkip step end_ skip hstep current + step) + 1
      else
        totalStepsFrom step end_ skip f? hstep (afterSkip step end_ skip hstep current + step)
  else
    0
termination_by (end_ - current).toNat
decreasing_by
  all_goals
    have := afterSkip_le step end_ skip hstep current
    omega

theorem iterBody_of_lt' (step end_ : Int) (skip : Bool) (f? : Option (Int → Bool))
    (hstep : 0 < step) (current : Int) (hcur : current < end_) :
    iterBody step end_ skip f? hstep current =
      if end_ ≤ afterSkip step end_ skip hstep current then
        LoopStep.halt (afterSkip step end_ skip hstep current + step)
      else
        applyFilter f? (afterSkip step end_ skip hstep current)
          (afterSkip step end_ skip hstep current + step) := by
  unfold afterSkip
  exact iterBody_of_lt step end_ skip f? hstep current hcur

/-- When one iterator loop entry terminates the sequence, the counter loop
counts nothing from the same cursor. -/
theorem totalStepsFrom_halt {step end_ : Int} {skip : Bool} {f? : Option (Int → Bool)}
    {hstep : 0 < step} {current c : Int}
    (h : iterBody step end_ skip f? hstep current = .halt c) :
    totalStepsFrom step end_ skip f? hstep current = 0 := by
  by_cases hcur : current < end_
  · rw [iterBody_of_lt' step end_ skip f? hstep current hcur] at h
    by_cases hc : end_ ≤ afterSkip step end_ skip hstep current
    · rw [totalStepsFrom, dif_pos hcur, if_pos hc]
    · rw [if_neg hc] at h
      exact absurd h applyFilter_ne_halt
  · rw [totalStepsFrom, dif_neg hcur]

/-- When one iterator loop entry hits a filter rejection (`continue`), the
counter loop recurses at the same new cursor without counting. -/
theorem totalStepsFrom_retry {step end_ : Int} {skip : Bool} {f? : Option (Int → Bool)}
    {hstep : 0 < step} {current c : Int}
    (h : iterBody step end_ skip f? hstep current = .retry c) :
    totalStepsFrom step end_ skip f? hstep current =
      totalStepsFrom step end_ skip f? hstep c := by
  have hb := iterBody_retry_bound h
  rw [iterBody_of_lt' step end_ skip f? hstep current hb.1] at h
  by_cases hc : end_ ≤ afterSkip step end_ skip hstep current
  · rw [if_pos hc] at h
    simp at h
  · rw [if_neg hc] at h
    obtain ⟨hcc, hfail⟩ := applyFilter_eq_retry_fails h
    rw [totalStepsFrom, dif_pos hb.1, if_neg hc, if_neg (by simp [hfail]), hcc]

/-- When one iterator loop entry yields a value, the counter loop counts it
and recurses at the same new cursor. -/
theorem totalStepsFrom_yield {step end_ : Int} {skip : Bool} {f? : Option (Int → Bool)}
    {hstep : 0 < step} {current v c : Int}
    (h : iterBody step end_ skip f? hstep current = .yield v c) :
    totalStepsFrom step end_ skip f? hstep current =
      totalStepsFrom step end_ skip f? hstep c + 1 := by
  have hb := iterBody_yield_spec h
  rw [iterBody_of_lt' step end_ skip f? hstep current hb.1] at h
  by_cases hc : end_ ≤ afterSkip step end_ skip hstep current
  · rw [if_pos hc] at h
    simp at h
  · rw [if_neg hc] at h
    obtain ⟨hv, hcc, hpass⟩ := applyFilter_eq_yield_passes h
    rw [totalStepsFrom, dif_pos hb.1, if_neg hc, if_pos hpass, hcc]

theorem totalStepsFrom_of_nextFrom_none {step end_ : Int} {skip : Bool}
    {f? : Option (Int → Bool)} {hstep : 0 < step} {current c : Int}
    (h : nextFrom step end_ skip f? hstep current = (none, c)) :
    totalStepsFrom step end_ skip f? hstep current = 0 := by
  rw [nextFrom] at h
  split at h
  · simp at h
  · rename_i c' heq
    exact totalStepsFrom_halt heq
  · rename_i c' heq
    have hb := iterBody_retry_bound heq
    rw [totalStepsFrom_retry heq]
    exact totalStepsFrom_of_nextFrom_none h
termination_by (end_ - current).toNat
decreasing_by
  omega

theorem totalStepsFrom_of_nextFrom_some {step end_ : Int} {skip : Bool}
    {f? : Option (Int → Bool)} {hstep : 0 < step} {current v c : Int}
    (h : nextFrom step end_ skip f? hstep current = (some v, c)) :
    totalStepsFrom step end_ skip f? hstep current =
      totalStepsFrom step end_ skip f? hstep c + 1 := by
  rw [nextFrom] at h
  split at h
  · rename_i v' c' heq
    simp only [Prod.mk.injEq, Option.some.injEq] at h
    obtain ⟨hv, hc⟩ := h
    subst hv
    subst hc
    exact totalStepsFrom_yield heq
  · simp at h
  · rename_i c' heq
    have hb := iterBody_retry_bound heq
    rw [totalStepsFrom_retry heq]
    exact totalStepsFrom_of_nextFrom_some h
termination_by (end_ - current).toNat
decreasing_by
  omega

/-- The central equivalence: draining the iterator from any cursor produces
exactly as many items as the counter loop counts from that cursor. -/
theorem drainFrom_length (step end_ : Int) (skip : Bool) (f? : Option (Int → Bool))
    (hstep : 0 < step) (current : Int) :
    (drainFrom step end_ skip f? hstep current).length =
      totalStepsFrom step end_ skip f? hstep current := by
  rw [drainFrom]
  split
  · rename_i v c h
    have hb := nextFrom_some h
    rw [List.length_cons, drainFrom_length step end_ skip f? hstep c,
      totalStepsFrom_of_nextFrom_some h]
  · rename_i c h
    rw [List.length_nil, totalStepsFrom_of_nextFrom_none h]
termination_by (end_ - current).toNat
decreasing_by
  omega

/-- `TimeRange` — the built, immutable range specification. -/
structure TimeRange where
  start : Int
  end_ : Int
  step : TimeStep
  skip_weekends : Bool
  filter : Option (Int → Bool)

/-- `TimeRangeIter` — the iterator state. -/
structure TimeRangeIter where
  current : Int
  end_ : Int
  step : Int
  skip_weekends : Bool
  filter : Option (Int → Bool)

/-- `IntoIterator for TimeRange` (src/src/lib.rs:127-140). -/
def TimeRange.intoIter (r : TimeRange) : TimeRangeIter :=
  { current := r.start, end_ := r.end_, step := r.step.toDuration,
    skip_weekends := r.skip_weekends, filter := r.filter }

/-- `TimeRangeIter::next`: the produced item together with the mutated
iterator (only `current` changes). -/
def TimeRangeIter.next (it : TimeRangeIter) (hstep : 0 < it.step) :
    Option Int × TimeRangeIter :=
  ((nextFrom it.step it.end_ it.skip_weekends it.filter hstep it.current).1,
   { it with current := (nextFrom it.step it.end_ it.skip_weekends it.filter hstep it.current).2 })

/-- Fully draining a `TimeRangeIter`: all items produced until the first
`None`. -/
def TimeRangeIter.drain (it : TimeRangeIter) (hstep : 0 < it.step) : List Int :=
  drainFrom it.step it.end_ it.skip_weekends it.filter hstep it.current

/-- The items produced by iterating a `TimeRange` to exhaustion. -/
def TimeRange.items (r : TimeRange) (hstep : 0 < r.step.toDuration) : List Int :=
  r.intoIter.drain hstep

/-- `<TimeRange as ComputeTimeRange>::total_steps` (src/src/lib.rs:226-259). -/
def TimeRange.total_steps (r : TimeRange) (hstep : 0 < r.step.toDuration) : Nat :=
  totalStepsFrom r.step.toDuration r.end_ r.skip_weekends r.filter hstep r.start

/-- `<TimeRange as ComputeTimeRange>::total_duration_in_seconds`
(src/src/lib.rs:261-264): `steps as i64 * self.step.as_total_seconds()`. -/
def TimeRange.total_duration_in_seconds (r : TimeRange) (hstep : 0 < r.step.toDuration) : Int :=
  (r.total_steps hstep : Int) * r.step.as_total_seconds

/-- `TimeRangeBuilder` — the mutable accumulator. -/
structure TimeRangeBuilder where
  start : Option Int
  end_ : Option Int
  step : Option TimeStep
  skip_weekends : Bool
  filter : Option (Int → Bool)

/-- `TimeRangeBuilder::new`. -/
def TimeRangeBuilder.new : TimeRangeBuilder :=
  { start := none, end_ := none, step := none, skip_weekends := false, filter := none }

/-- `TimeRangeBuilder::start`. -/
def TimeRangeBuilder.setStart (b : TimeRangeBuilder) (s : Int) : TimeRangeBuilder :=
  { b with start := some s }

/-- `TimeRangeBuilder::end`. -/
def TimeRangeBuilder.setEnd (b : TimeRangeBuilder) (e : Int) : TimeRangeBuilder :=
  { b with end_ := some e }

/-- `TimeRangeBuilder::step`. -/
def TimeRangeBuilder.setStep (b : TimeRangeBuilder) (s : TimeStep) : TimeRangeBuilder :=
  { b with step := some s }

/-- `TimeRangeBuilder::skip_weekends`. -/
def TimeRangeBuilder.setSkipWeekends (b : TimeRangeBuilder) (sk : Bool) : TimeRangeBuilder :=
  { b with skip_weekends := sk }

/-- `TimeRangeBuilder::filter`. -/
def TimeRangeBuilder.setFilter (b : TimeRangeBuilder) (f : Int → Bool) : TimeRangeBuilder :=
  { b with filter := some f }

/-- `TimeRangeBuilder::build` (src/src/lib.rs:198-215); the `&'static str`
error values are kept verbatim. -/
def TimeRangeBuilder.build (b : TimeRangeBuilder) : Except String TimeRange :=
  match b.start with
  | none => .error "start time is required"
  | some start =>
    match b.end_ with
    | none => .error "end time is required"
    | some end_ =>
      match b.step with
      | none => .error "step is required"
      | some step =>
        if end_ ≤ start then
          .error "end time must be after start time"
        else
          .ok { start := start, end_ := end_, step := step,
                skip_weekends := b.skip_weekends, filter := b.filter }

theorem nextFrom_of_yield {step end_ : Int} {skip : Bool} {f? : Option (Int → Bool)}
    {hstep : 0 < step} {current v c : Int}
    (h : iterBody step end_ skip f? hstep current = .yield v c) :
    nextFrom step end_ skip f? hstep current = (some v, c) := by
  rw [nextFrom]
  split
  · rename_i v' c' heq
    rw [h] at heq
    simp only [LoopStep.yield.injEq] at heq
    rw [heq.1, heq.2]
  · rename_i c' heq
    rw [h] at heq
    simp at heq
  · rename_i c' heq
    rw [h] at heq
    simp at heq

theorem nextFrom_of_halt {step end_ : Int} {skip : Bool} {f? : Option (Int → Bool)}
    {hstep : 0 < step} {current c : Int}
    (h : iterBody step end_ skip f? hstep current = .halt c) :
    nextFrom step end_ skip f? hstep current = (none, c) := by
  rw [nextFrom]
  split
  · rename_i v' c' heq
    rw [h] at heq
    simp at heq
  · rename_i c' heq
    rw [h] at heq
    simp only [LoopStep.halt.injEq] at heq
    rw [heq]
  · rename_i c' heq
    rw [h] at heq
    simp at heq

theorem nextFrom_of_retry {step end_ : Int} {skip : Bool} {f? : Option (Int → Bool)}
    {hstep : 0 < step} {current c : Int}
    (h : iterBody step end_ skip f? hstep current = .retry c) :
    nextFrom step end_ skip f? hstep current = nextFrom step end_ skip f? hstep c := by
  conv_lhs => rw [nextFrom]
  split
  · rename_i v' c' heq
    rw [h] at heq
    simp at heq
  · rename_i c' heq
    rw [h] at heq
    simp at heq
  · rename_i c' heq
    rw [h] at heq
    simp only [LoopStep.retry.injEq] at heq
    rw [heq]

theorem drainFrom_of_some {step end_ : Int} {skip : Bool} {f? : Option (Int → Bool)}
    {hstep : 0 < step} {current v c : Int}
    (h : nextFrom step end_ skip f? hstep current = (some v, c)) :
    drainFrom step end_ skip f? hstep current =
      v :: drainFrom step end_ skip f? hstep c := by
  rw [drainFrom]
  split
  · rename_i v' c' heq
    rw [h] at heq
    simp only [Prod.mk.injEq, Option.some.injEq] at heq
    rw [heq.1, heq.2]
  · rename_i c' heq
    rw [h] at heq
    simp at heq

theorem drainFrom_of_none {step end_ : Int} {skip : Bool} {f? : Option (Int → Bool)}
    {hstep : 0 < step} {current c : Int}
    (h : nextFrom step end_ skip f? hstep current = (none, c)) :
    drainFrom step end_ skip f? hstep current = [] := by
  rw [drainFrom]
  split
  · rename_i v' c' heq
    rw [h] at heq
    simp at heq
  · rfl

/-- Every element of the drained list is below `end`. -/
theorem drainFrom_mem_lt (step end_ : Int) (skip : Bool) (f? : Option (Int → Bool))
    (hstep : 0 < step) (current : Int) :
    ∀ v ∈ drainFrom step end_ skip f? hstep current, v < end_ := by
  rw [drainFrom]
  split
  · rename_i v c h
    have hb := nextFrom_some h
    intro w hw
    rcases List.mem_cons.mp hw with hv | hmem
    · omega
    · exact drainFrom_mem_lt step end_ skip f? hstep c w hmem
  · intro w hw
    simp at hw
termination_by (end_ - current).toNat
decreasing_by
  omega

/-- Every element of the drained list is at least the entry cursor. -/
theorem drainFrom_head_ge {step end_ : Int} {skip : Bool} {f? : Option (Int → Bool)}
    {hstep : 0 < step} {current v : Int} {l : List Int}
    (h : drainFrom step end_ skip f? hstep current = v :: l) :
    current ≤ v := by
  rw [drainFrom] at h
  split at h
  · rename_i v' c heq
    have hb := nextFrom_some heq
    simp only [List.cons.injEq] at h
    omega
  · simp at h

/-- `t` is a weekday (not Saturday, not Sunday). -/
def isWeekdayB (t : Int) : Bool :=
  !(isWeekend t)

/-- All timestamps of the list are weekdays. -/
def allWeekdays : List Int → Bool
  | [] => true
  | v :: l => isWeekdayB v && allWeekdays l

/-- All elements of the list are strictly below `e`. -/
def allBelow (e : Int) : List Int → Bool
  | [] => true
  | v :: l => decide (v < e) && allBelow e l

/-- Each element is at least `step` after its predecessor. -/
def stepsApart (step : Int) : List Int → Bool
  | [] => true
  | [_] => true
  | a :: b :: l => decide (a + step ≤ b) && stepsApart step (b :: l)

theorem drainFrom_allBelow (step end_ : Int) (skip : Bool) (f? : Option (Int → Bool))
    (hstep : 0 < step) (current : Int) :
    allBelow end_ (drainFrom step end_ skip f? hstep current) = true := by
  rw [drainFrom]
  split
  · rename_i v c h
    have hb := nextFrom_some h
    have ih := drainFrom_allBelow step end_ skip f? hstep c
    unfold allBelow
    rw [ih, Bool.and_true, decide_eq_true_eq]
    omega
  · rfl
termination_by (end_ - current).toNat
decreasing_by
  omega

/-- With `skip_weekends = true`, every drained timestamp is a weekday. -/
theorem drainFrom_allWeekdays (step end_ : Int) (f? : Option (Int → Bool))
    (hstep : 0 < step) (current : Int) :
    allWeekdays (drainFrom step end_ true f? hstep current) = true := by
  rw [drainFrom]
  split
  · rename_i v c h
    have hb := nextFrom_some h
    have hw := nextFrom_some_not_weekend h
    have ih := drainFrom_allWeekdays step end_ f? hstep c
    unfold allWeekdays
    rw [ih, Bool.and_true]
    unfold isWeekdayB
    rw [hw]
    rfl
  · rfl
termination_by (end_ - current).toNat
decreasing_by
  omega

theorem drainFrom_stepsApart (step end_ : Int) (skip : Bool) (f? : Option (Int → Bool))
    (hstep : 0 < step) (current : Int) :
    stepsApart step (drainFrom step end_ skip f? hstep current) = true := by
  rw [drainFrom]
  split
  · rename_i v c h
    have hb := nextFrom_some h
    have ih := drainFrom_stepsApart step end_ skip f? hstep c
    cases hd : drainFrom step end_ skip f? hstep c with
    | nil => rfl
    | cons w l =>
      have hw := drainFrom_head_ge hd
      rw [hd] at ih
      unfold stepsApart
      rw [ih, Bool.and_true, decide_eq_true_eq]
      omega
  · rfl
termination_by (end_ - current).toNat
decreasing_by
  omega

theorem afterSkip_false (step end_ : Int) (hstep : 0 < step) (current : Int) :
    afterSkip step end_ false hstep current = current := by
  unfold afterSkip
  simp

theorem applyFilter_none (v cur : Int) :
    applyFilter none v cur = .yield v cur := by
  rfl

/-- With no weekend skipping and no filter, a loop entry below `end` yields
the cursor itself and advances by one step. -/
theorem iterBody_simple (step end_ : Int) (hstep : 0 < step) (current : Int)
    (hcur : current < end_) :
    iterBody step end_ false none hstep current = .yield current (current + step) := by
  rw [iterBody_of_lt' step end_ false none hstep current hcur, afterSkip_false,
    if_neg (not_le.mpr hcur), applyFilter_none]

/-- The arithmetic progression `c, c + d, …` with `n` terms
(term `k` is `c + k·d`). -/
def stepList (c d : Int) : Nat → List Int
  | 0 => []
  | n + 1 => c :: stepList (c + d) d n

theorem stepList_length (c d : Int) (n : Nat) : (stepList c d n).length = n := by
  induction n generalizing c with
  | zero => rfl
  | succ n ih => simp [stepList, ih]

theorem stepList_eq_map (c d : Int) (n : Nat) :
    stepList c d n = (List.range n).map (fun k : Nat => c + (k : Int) * d) := by
  induction n generalizing c with
  | zero => rfl
  | succ n ih =>
    rw [stepList, ih, List.range_succ_eq_map, List.map_cons, List.map_map]
    have hf : ((fun k : Nat => c + (k : Int) * d) ∘ Nat.succ)
        = (fun k : Nat => (c + d) + (k : Int) * d) := by
      funext k
      simp only [Function.comp]
      push_cast
      ring
    rw [hf]
    simp

theorem drainFrom_simple (step end_ : Int) (hstep : 0 < step) (current : Int) :
    drainFrom step end_ false none hstep current =
      stepList current step ((end_ - current + step - 1) / step).toNat := by
  by_cases hcur : current < end_
  · have hnext : nextFrom step end_ false none hstep current = (some current, current + step) :=
      nextFrom_of_yield (iterBody_simple step end_ hstep current hcur)
    rw [drainFrom_of_some hnext, drainFrom_simple step end_ hstep (current + step)]
    have h2 : end_ - current + step - 1 = (end_ - current - 1) + 1 * step := by ring
    have h3 : (end_ - current - 1 + 1 * step) / step = (end_ - current - 1) / step + 1 :=
      Int.add_mul_ediv_right _ 1 (by omega)
    have h4 : 0 ≤ (end_ - current - 1) / step := Int.ediv_nonneg (by omega) (by omega)
    have h5 : ((end_ - current - 1) / step + 1).toNat = ((end_ - current - 1) / step).toNat + 1 := by
      omega
    rw [h2, h3, h5, stepList]
    have h1 : end_ - (current + step) + step - 1 = end_ - current - 1 := by ring
    rw [h1]
  · have hge : end_ ≤ current := not_lt.mp hcur
    rw [drainFrom_of_none (nextFrom_of_ge step end_ false none hstep current hge)]
    have hnum : end_ - current + step - 1 < step := by omega
    have hz : (end_ - current + step - 1) / step ≤ 0 := by
      by_cases hn : 0 ≤ end_ - current + step - 1
      · rw [Int.ediv_eq_zero_of_lt hn hnum]
      · exact le_of_lt (Int.ediv_neg' (by omega) hstep)
    have : ((end_ - current + step - 1) / step).toNat = 0 := by omega
    rw [this]
    rfl
termination_by (end_ - current).toNat
decreasing_by
  omega

/-- Fuel-indexed variant of the `total_steps` loop: at most `fuel` entries
of the outer `while current < end` loop are executed, `none` meaning the
loop has not exited within `fuel` entries. -/
def totalStepsFuel (step end_ : Int) (skip : Bool) (f? : Option (Int → Bool))
    (hstep : 0 < step) : Nat → Int → Option Nat
  | 0, _ => none
  | fuel + 1, current =>
    if current < end_ then
      if end_ ≤ afterSkip step end_ skip hstep current then
        some 0
      else
        if passesFilter f? (afterSkip step end_ skip hstep current) then
          Option.map (fun n => n + 1)
            (totalStepsFuel step end_ skip f? hstep fuel
              (afterSkip step end_ skip hstep current + step))
        else
          totalStepsFuel step end_ skip f? hstep fuel
            (afterSkip step end_ skip hstep current + step)
    else
      some 0

/-- The counter loop exits within any fuel bound exceeding the distance to
`end`, and then computes `totalStepsFrom`. -/
theorem totalStepsFuel_converges (step end_ : Int) (skip : Bool) (f? : Option (Int → Bool))
    (hstep : 0 < step) :
    ∀ (fuel : Nat) (current : Int), (end_ - current).toNat < fuel →
      totalStepsFuel step end_ skip f? hstep fuel current =
        some (totalStepsFrom step end_ skip f? hstep current) := by
  intro fuel
  induction fuel with
  | zero =>
    intro current h
    omega
  | succ fuel ih =>
    intro current h
    by_cases hcur : current < end_
    · by_cases hc : end_ ≤ afterSkip step end_ skip hstep current
      · rw [totalStepsFuel, if_pos hcur, if_pos hc,
          totalStepsFrom, dif_pos hcur, if_pos hc]
      · have hle := afterSkip_le step end_ skip hstep current
        have hrec : (end_ - (afterSkip step end_ skip hstep current + step)).toNat < fuel := by
          omega
        by_cases hp : passesFilter f? (afterSkip step end_ skip hstep current) = true
        · rw [totalStepsFuel, if_pos hcur, if_neg hc, if_pos hp, ih _ hrec]
          conv_rhs => rw [totalStepsFrom]
          rw [dif_pos hcur, if_neg hc, if_pos hp]
          rfl
        · rw [totalStepsFuel, if_pos hcur, if_neg hc, if_neg hp, ih _ hrec]
          conv_rhs => rw [totalStepsFrom]
          rw [dif_pos hcur, if_neg hc, if_neg hp]
    · rw [totalStepsFuel, if_neg hcur, totalStepsFrom, dif_neg hcur]

/-- The cursor after `k` further calls to `next`. -/
def nextCalls (step end_ : Int) (skip : Bool) (f? : Option (Int → Bool))
    (hstep : 0 < step) : Nat → Int → Int
  | 0, c => c
  | k + 1, c => nextCalls step end_ skip f? hstep k (nextFrom step end_ skip f? hstep c).2

theorem nextCalls_of_ge (step end_ : Int) (skip : Bool) (f? : Option (Int → Bool))
    (hstep : 0 < step) :
    ∀ (k : Nat) (c : Int), end_ ≤ c → nextCalls step end_ skip f? hstep k c = c := by
  intro k
  induction k with
  | zero =>
    intro c hge
    rfl
  | succ k ih =>
    intro c hge
    rw [nextCalls, nextFrom_of_ge step end_ skip f? hstep c hge]
    exact ih c hge

theorem applyFilter_cur (f? : Option (Int → Bool)) (v cur : Int) :
    (applyFilter f? v cur).cur = cur := by
  unfold applyFilter
  split
  · rfl
  · rfl

theorem items_eq_drainFrom (r : TimeRange) (hstep : 0 < r.step.toDuration) :
    r.items hstep =
      drainFrom r.step.toDuration r.end_ r.skip_weekends r.filter hstep r.start := by
  simp only [TimeRange.items, TimeRangeIter.drain, TimeRange.intoIter]

/-- C1: for every valid specification (start < end, positive step duration,
any skip_weekends setting, any filter), `total_steps()` equals the number of
items produced by fully draining the iterator obtained from the same
specification. -/
theorem C1_total_steps_eq_drain_length (r : TimeRange) (hrange : r.start < r.end_)
    (hstep : 0 < r.step.toDuration) :
    r.total_steps hstep = (r.items hstep).length :=
  (drainFrom_length r.step.toDuration r.end_ r.skip_weekends r.filter hstep r.start).symm

theorem C1_witness :
    TimeRange.total_steps ⟨0, 10, TimeStep.Second 3, true, none⟩ (by decide)
      = (TimeRange.items ⟨0, 10, TimeStep.Second 3, true, none⟩ (by decide)).length :=
  C1_total_steps_eq_drain_length ⟨0, 10, TimeStep.Second 3, true, none⟩ (by decide) (by decide)

/-- C2: with `skip_weekends = true` and `step = Day(1)`, a start on a
weekday and an end 30 days later, no produced timestamp is a Saturday or a
Sunday. -/
theorem C2_no_weekend_emitted (r : TimeRange) (hskip : r.skip_weekends = true)
    (hstepk : r.step = TimeStep.Day 1) (hstart : isWeekend r.start = false)
    (hend : r.end_ = r.start + 30 * 86400) (hstep : 0 < r.step.toDuration) :
    allWeekdays (r.items hstep) = true := by
  rw [items_eq_drainFrom r hstep]
  have hsk : r.skip_weekends = true := hskip
  rw [hsk]
  exact drainFrom_allWeekdays r.step.toDuration r.end_ r.filter hstep r.start

theorem C2_witness :
    allWeekdays (TimeRange.items ⟨4 * 86400, 4 * 86400 + 30 * 86400, TimeStep.Day 1, true, none⟩
      (by decide)) = true :=
  C2_no_weekend_emitted ⟨4 * 86400, 4 * 86400 + 30 * 86400, TimeStep.Day 1, true, none⟩
    rfl rfl (by decide) rfl (by decide)

/-- C3: on a loop entry with `current < end`, the final cursor is
`day_candidate + step` exactly when `skip_weekends` is set and the
weekend-skip walk moved the candidate, and `candidate + step` (the plain
unconditional advance) otherwise. -/
theorem C3_cursor_resynchronization (step end_ : Int) (skip : Bool)
    (f? : Option (Int → Bool)) (hstep : 0 < step) (current : Int)
    (hcur : current < end_) :
    (iterBody step end_ skip f? hstep current).cur =
      if skip = true ∧ skipWeekendWalk step end_ hstep current ≠ current then
        skipWeekendWalk step end_ hstep current + step
      else
        current + step := by
  have hbody : (iterBody step end_ skip f? hstep current).cur
      = afterSkip step end_ skip hstep current + step := by
    rw [iterBody_of_lt' step end_ skip f? hstep current hcur]
    split
    · rfl
    · exact applyFilter_cur f? _ _
  rw [hbody]
  cases skip with
  | false =>
    simp [afterSkip]
  | true =>
    by_cases hdc : skipWeekendWalk step end_ hstep current = current
    · rw [if_neg (by simp [hdc])]
      simp [afterSkip, hdc]
    · rw [if_pos ⟨rfl, hdc⟩]
      simp [afterSkip]

theorem C3_witness :
    (iterBody 86400 (10 * 86400) true none (by decide) (2 * 86400)).cur =
      if (true : Bool) = true ∧ skipWeekendWalk 86400 (10 * 86400) (by decide) (2 * 86400) ≠ 2 * 86400 then
        skipWeekendWalk 86400 (10 * 86400) (by decide) (2 * 86400) + 86400
      else
        2 * 86400 + 86400 :=
  C3_cursor_resynchronization 86400 (10 * 86400) true none (by decide) (2 * 86400) (by decide)

/-- C4: with a positive step duration, consecutive produced timestamps are
at least one step apart (no backward jumps) and every produced timestamp is
strictly below `end`. -/
theorem C4_monotone_below_end (r : TimeRange) (hrange : r.start < r.end_)
    (hstep : 0 < r.step.toDuration) :
    stepsApart r.step.toDuration (r.items hstep) = true ∧
    allBelow r.end_ (r.items hstep) = true := by
  rw [items_eq_drainFrom r hstep]
  exact ⟨drainFrom_stepsApart r.step.toDuration r.end_ r.skip_weekends r.filter hstep r.start,
    drainFrom_allBelow r.step.toDuration r.end_ r.skip_weekends r.filter hstep r.start⟩

theorem C4_witness :
    stepsApart 3 (TimeRange.items ⟨0, 10, TimeStep.Second 3, false, none⟩ (by decide)) = true ∧
    allBelow 10 (TimeRange.items ⟨0, 10, TimeStep.Second 3, false, none⟩ (by decide)) = true :=
  C4_monotone_below_end ⟨0, 10, TimeStep.Second 3, false, none⟩ (by decide) (by decide)

/-- C5: `build()` fails with the missing-field message when start, end or
step was never set, fails with the invalid-range message when all are set
but end ≤ start, and otherwise succeeds with exactly the given fields,
`skip_weekends` defaulting to `false` and the filter to absent
(accept-everything).  These are the only outcomes. -/
theorem C5_build_spec :
    (∀ b : TimeRangeBuilder, b.start = none →
        b.build = Except.error "start time is required") ∧
    (∀ (b : TimeRangeBuilder) (s : Int), b.start = some s → b.end_ = none →
        b.build = Except.error "end time is required") ∧
    (∀ (b : TimeRangeBuilder) (s e : Int), b.start = some s → b.end_ = some e →
        b.step = none → b.build = Except.error "step is required") ∧
    (∀ (b : TimeRangeBuilder) (s e : Int) (st : TimeStep), b.start = some s →
        b.end_ = some e → b.step = some st → e ≤ s →
        b.build = Except.error "end time must be after start time") ∧
    (∀ (b : TimeRangeBuilder) (s e : Int) (st : TimeStep), b.start = some s →
        b.end_ = some e → b.step = some st → s < e →
        b.build = Except.ok
          { start := s, end_ := e, step := st,
            skip_weekends := b.skip_weekends, filter := b.filter }) ∧
    (∀ (s e : Int) (st : TimeStep), s < e →
        (((TimeRangeBuilder.new.setStart s).setEnd e).setStep st).build
          = Except.ok { start := s, end_ := e, step := st,
                        skip_weekends := false, filter := none }) := by
  refine ⟨?_, ?_, ?_, ?_, ?_, ?_⟩
  · intro b h
    simp [TimeRangeBuilder.build, h]
  · intro b s hs he
    simp [TimeRangeBuilder.build, hs, he]
  · intro b s e hs he hst
    simp [TimeRangeBuilder.build, hs, he, hst]
  · intro b s e st hs he hst hle
    simp [TimeRangeBuilder.build, hs, he, hst, if_pos hle]
  · intro b s e st hs he hst hlt
    simp [TimeRangeBuilder.build, hs, he, hst, if_neg (not_le.mpr hlt)]
  · intro s e st hlt
    simp [TimeRangeBuilder.new, TimeRangeBuilder.setStart, TimeRangeBuilder.setEnd,
      TimeRangeBuilder.setStep, TimeRangeBuilder.build, if_neg (not_le.mpr hlt)]

theorem C5_witness :
    (((TimeRangeBuilder.new.setStart 0).setEnd 10).setStep (TimeStep.Second 3)).build
      = Except.ok { start := 0, end_ := 10, step := TimeStep.Second 3,
                    skip_weekends := false, filter := none } :=
  C5_build_spec.2.2.2.2.2 0 10 (TimeStep.Second 3) (by decide)

/-- C6: for every specification whose step converts to a strictly positive
duration, the `total_steps` loop exits within `(end - start) + 1` outer
iterations (for every skip_weekends setting and filter), computing the same
count as the loop embedding. -/
theorem C6_total_steps_terminates (r : TimeRange) (hstep : 0 < r.step.toDuration) :
    totalStepsFuel r.step.toDuration r.end_ r.skip_weekends r.filter hstep
        ((r.end_ - r.start).toNat + 1) r.start = some (r.total_steps hstep) :=
  totalStepsFuel_converges r.step.toDuration r.end_ r.skip_weekends r.filter hstep
    ((r.end_ - r.start).toNat + 1) r.start (by omega)

theorem C6_witness :
    totalStepsFuel 2 5 false none (by decide) ((5 - 0 : Int).toNat + 1) 0
      = some (TimeRange.total_steps ⟨0, 5, TimeStep.Second 2, false, none⟩ (by decide)) :=
  C6_total_steps_terminates ⟨0, 5, TimeStep.Second 2, false, none⟩ (by decide)

/-- C7: `total_duration_in_seconds()` is `total_steps()` multiplied by the
step's total-seconds value. -/
theorem C7_duration_is_count_times_step (r : TimeRange) (hstep : 0 < r.step.toDuration) :
    r.total_duration_in_seconds hstep
      = (r.total_steps hstep : Int) * r.step.as_total_seconds :=
  rfl

theorem C7_witness :
    TimeRange.total_duration_in_seconds ⟨0, 10, TimeStep.Second 3, false, none⟩ (by decide)
      = (TimeRange.total_steps ⟨0, 10, TimeStep.Second 3, false, none⟩ (by decide) : Int)
          * (TimeStep.Second 3).as_total_seconds :=
  C7_duration_is_count_times_step ⟨0, 10, TimeStep.Second 3, false, none⟩ (by decide)

/-- C8: the step-to-seconds conversion is the total function
Second(n) ↦ n, Minute(n) ↦ 60·n, Hour(n) ↦ 3600·n, Day(n) ↦ 86400·n, and
the iterator state and the counter both step by exactly this converted
duration. -/
theorem C8_step_conversion (n : Int) (r : TimeRange) (hstep : 0 < r.step.toDuration) :
    (TimeStep.Second n).as_total_seconds = n ∧
    (TimeStep.Minute n).as_total_seconds = n * 60 ∧
    (TimeStep.Hour n).as_total_seconds = n * 3600 ∧
    (TimeStep.Day n).as_total_seconds = n * 86400 ∧
    r.intoIter.step = r.step.as_total_seconds ∧
    r.total_steps hstep
      = totalStepsFrom r.step.as_total_seconds r.end_ r.skip_weekends r.filter hstep r.start :=
  ⟨rfl, rfl, rfl, rfl, rfl, rfl⟩

theorem C8_witness :
    (TimeStep.Second 7).as_total_seconds = 7 ∧
    (TimeStep.Minute 7).as_total_seconds = 7 * 60 ∧
    (TimeStep.Hour 7).as_total_seconds = 7 * 3600 ∧
    (TimeStep.Day 7).as_total_seconds = 7 * 86400 ∧
    (TimeRange.intoIter ⟨0, 10, TimeStep.Second 3, false, none⟩).step
      = (TimeStep.Second 3).as_total_seconds ∧
    TimeRange.total_steps ⟨0, 10, TimeStep.Second 3, false, none⟩ (by decide)
      = totalStepsFrom (TimeStep.Second 3).as_total_seconds 10 false none (by decide) 0 :=
  C8_step_conversion 7 ⟨0, 10, TimeStep.Second 3, false, none⟩ (by decide)

/-- C9: exhaustion is terminal — once a call to `next` returns `None`, every
later call (any number of further calls) also returns `None`. -/
theorem C9_exhaustion_terminal (r : TimeRange) (hrange : r.start < r.end_)
    (hstep : 0 < r.step.toDuration) (current : Int) (k : Nat)
    (hnone : (nextFrom r.step.toDuration r.end_ r.skip_weekends r.filter hstep current).1
      = none) :
    (nextFrom r.step.toDuration r.end_ r.skip_weekends r.filter hstep
      (nextCalls r.step.toDuration r.end_ r.skip_weekends r.filter hstep k
        (nextFrom r.step.toDuration r.end_ r.skip_weekends r.filter hstep current).2)).1
      = none := by
  have hpair : nextFrom r.step.toDuration r.end_ r.skip_weekends r.filter hstep current
      = (none, (nextFrom r.step.toDuration r.end_ r.skip_weekends r.filter hstep current).2) := by
    rw [← hnone]
  have hge := nextFrom_none hpair
  rw [nextCalls_of_ge r.step.toDuration r.end_ r.skip_weekends r.filter hstep k _ hge,
    nextFrom_of_ge r.step.toDuration r.end_ r.skip_weekends r.filter hstep _ hge]

theorem C9_witness :
    (nextFrom 1 3 false none (by decide)
      (nextCalls 1 3 false none (by decide) 2
        (nextFrom 1 3 false none (by decide) 5).2)).1 = none :=
  C9_exhaustion_terminal ⟨0, 3, TimeStep.Second 1, false, none⟩ (by decide) (by decide) 5 2
    (congrArg Prod.fst (nextFrom_of_ge 1 3 false none (by decide) 5 (by decide)))

/-- C10: with no weekend skipping and no filter, the iterator yields exactly
the arithmetic progression start, start + d, start + 2d, … of all values
below `end` (the first item being `start` itself), and `total_steps()` is
the ceiling (end − start + d − 1) ÷ d of (end − start) / d. -/
theorem C10_progression_and_ceiling (r : TimeRange) (hskip : r.skip_weekends = false)
    (hfilter : r.filter = none) (hrange : r.start < r.end_)
    (hstep : 0 < r.step.toDuration) :
    r.items hstep
      = stepList r.start r.step.toDuration
          ((r.end_ - r.start + r.step.toDuration - 1) / r.step.toDuration).toNat ∧
    (r.total_steps hstep : Int)
      = (r.end_ - r.start + r.step.toDuration - 1) / r.step.toDuration ∧
    (r.items hstep).head? = some r.start := by
  have hitems : r.items hstep
      = drainFrom r.step.toDuration r.end_ false none hstep r.start := by
    rw [items_eq_drainFrom r hstep, hskip, hfilter]
  have hclosed := drainFrom_simple r.step.toDuration r.end_ hstep r.start
  have hx1 : 1 ≤ (r.end_ - r.start + r.step.toDuration - 1) / r.step.toDuration := by
    rw [Int.le_ediv_iff_mul_le hstep]
    omega
  refine ⟨?_, ?_, ?_⟩
  · rw [hitems, hclosed]
  · have hlen : r.total_steps hstep = (r.items hstep).length :=
      (drainFrom_length r.step.toDuration r.end_ r.skip_weekends r.filter hstep r.start).symm
    rw [hlen, hitems, hclosed, stepList_length, Int.toNat_of_nonneg (by omega)]
  · obtain ⟨m, hm⟩ :
        ∃ m, ((r.end_ - r.start + r.step.toDuration - 1) / r.step.toDuration).toNat = m + 1 :=
      ⟨((r.end_ - r.start + r.step.toDuration - 1) / r.step.toDuration).toNat - 1, by omega⟩
    rw [hitems, hclosed, hm, stepList]
    rfl

theorem C10_witness :
    TimeRange.items ⟨0, 10, TimeStep.Second 3, false, none⟩ (by decide)
      = stepList 0 3 (((10 : Int) - 0 + 3 - 1) / 3).toNat ∧
    (TimeRange.total_steps ⟨0, 10, TimeStep.Second 3, false, none⟩ (by decide) : Int)
      = ((10 : Int) - 0 + 3 - 1) / 3 ∧
    (TimeRange.items ⟨0, 10, TimeStep.Second 3, false, none⟩ (by decide)).head? = some 0 :=
  C10_progression_and_ceiling ⟨0, 10, TimeStep.Second 3, false, none⟩ rfl rfl (by decide) (by decide)
